import Mathlib

/-!
Verification development for the StocksToNote watchlist generator
(src/Watchlist/watchlist_generator.py).

Modelling conventions, stated once:

* Machine floating point (numpy `float64` / Python `float`) is modelled by
  `PFloat`: either a finite rational or one of the IEEE special values
  `inf`, `ninf`, `nan`.  Finite arithmetic is idealised as exact rational
  arithmetic; the special-value propagation rules (nan absorption,
  `x / 0`, `inf - inf`, ...) follow IEEE-754 / numpy.  Signed zero is not
  distinguished.  numpy scalar operations never raise on special values
  (the script suppresses the `divide by zero` RuntimeWarning at line 19,
  and warnings never raise by default), so all `PFloat` operations are
  total functions.
* Python exceptions are modelled by `Except PyErr`.  The only operations
  in the screened code path that can raise on numeric data are
  `round(x)` without `ndigits` (OverflowError on ±inf, ValueError on
  nan), label indexing a too-short series (KeyError), positional `[0]`
  on an empty frame (IndexError), and ordering comparison of a `str`
  against a number (TypeError).
* `np.log` and `np.sqrt` are transcendental; they are carried as an
  abstract parameter `NpFuns` together with the one IEEE fact the proofs
  need (`sqrt nan = nan`).  No theorem below depends on their finite
  values.
* External collaborators (requests/BeautifulSoup scraping, yfinance
  downloads) are modelled by their returned data: an `Option` that is
  `none` when the fetch/parse raised inside the collaborator function
  (all of those functions catch every exception internally).
-/

/-- Python exception classes that the screened code paths can raise. -/
inductive PyErr where
  | keyError
  | indexError
  | overflowError
  | valueError
  | typeError
  deriving DecidableEq

/-- A numpy/Python double: a finite rational or an IEEE special value. -/
inductive PFloat where
  | nan
  | inf
  | ninf
  | fin (q : ℚ)
  deriving DecidableEq

/-- A dynamically typed Python value as returned by `calculate_volatility`:
either a float or a string (the `"No data"` sentinel of its except-branch). -/
inductive PyVal where
  | num (x : PFloat)
  | str (s : String)
  deriving DecidableEq

namespace PFloat

/-- IEEE negation. -/
def pneg : PFloat → PFloat
  | nan => nan
  | inf => ninf
  | ninf => inf
  | fin q => fin (-q)

/-- IEEE addition (numpy `+`): nan absorbs, `inf + (-inf) = nan`. -/
def padd : PFloat → PFloat → PFloat
  | nan, _ => nan
  | _, nan => nan
  | inf, ninf => nan
  | ninf, inf => nan
  | inf, _ => inf
  | _, inf => inf
  | ninf, _ => ninf
  | _, ninf => ninf
  | fin a, fin b => fin (a + b)

/-- IEEE subtraction. -/
def psub (a b : PFloat) : PFloat := padd a (pneg b)

/-- IEEE multiplication: nan absorbs, `±inf * 0 = nan`. -/
def pmul : PFloat → PFloat → PFloat
  | nan, _ => nan
  | _, nan => nan
  | inf, inf => inf
  | inf, ninf => ninf
  | ninf, inf => ninf
  | ninf, ninf => inf
  | inf, fin b => if b = 0 then nan else if 0 < b then inf else ninf
  | fin a, inf => if a = 0 then nan else if 0 < a then inf else ninf
  | ninf, fin b => if b = 0 then nan else if 0 < b then ninf else inf
  | fin a, ninf => if a = 0 then nan else if 0 < a then ninf else inf
  | fin a, fin b => fin (a * b)

/-- IEEE division as numpy performs it on scalars: division by zero
yields ±inf (or nan for 0/0) with only a RuntimeWarning, never an
exception. -/
def pdiv : PFloat → PFloat → PFloat
  | nan, _ => nan
  | _, nan => nan
  | inf, inf => nan
  | inf, ninf => nan
  | ninf, inf => nan
  | ninf, ninf => nan
  | inf, fin b => if 0 ≤ b then inf else ninf
  | ninf, fin b => if 0 ≤ b then ninf else inf
  | fin _, inf => fin 0
  | fin _, ninf => fin 0
  | fin a, fin b =>
      if b = 0 then (if a = 0 then nan else if 0 < a then inf else ninf)
      else fin (a / b)

/-- IEEE strict less-than as a boolean: any comparison with nan is false. -/
def plt : PFloat → PFloat → Bool
  | nan, _ => false
  | _, nan => false
  | inf, _ => false
  | _, inf => true
  | ninf, ninf => false
  | ninf, _ => true
  | _, ninf => false
  | fin a, fin b => a < b

/-- Strict greater-than, `a > b` in Python. -/
def pgt (a b : PFloat) : Bool := plt b a

end PFloat

/-- Floor of a rational, computably (`q.num / q.den` with integer
Euclidean division). -/
def ratFloor (q : ℚ) : ℤ := q.num / (q.den : ℤ)

/-- Python 3 `round(x)` on a finite value: round half to even
(banker's rounding). -/
def roundHalfEven (q : ℚ) : ℤ :=
  let n := ratFloor q
  let r := q - (n : ℚ)
  if r < 1/2 then n
  else if 1/2 < r then n + 1
  else if n % 2 = 0 then n else n + 1

/-- Python `round(x)` without `ndigits`: converts to int, raising
OverflowError on ±infinity and ValueError on nan (this is what
`round(vol_ratio)` and `round(gap)` do at line 143 of the source). -/
def roundP : PFloat → Except PyErr ℤ
  | PFloat.fin q => Except.ok (roundHalfEven q)
  | PFloat.inf => Except.error PyErr.overflowError
  | PFloat.ninf => Except.error PyErr.overflowError
  | PFloat.nan => Except.error PyErr.valueError

/-- Python `round(x, 2)`: total; nan and ±inf pass through unchanged. -/
def round2P : PFloat → PFloat
  | PFloat.fin q => PFloat.fin (roundHalfEven (q * 100) / 100)
  | PFloat.inf => PFloat.inf
  | PFloat.ninf => PFloat.ninf
  | PFloat.nan => PFloat.nan

/-- Mean of a rational list (pandas `.mean()` over a float column,
idealised to exact arithmetic). -/
def meanQ (l : List ℚ) : ℚ := l.sum / (l.length : ℚ)

/-- Insertion step for the sort backing the median. -/
def insertSorted (x : ℚ) : List ℚ → List ℚ
  | [] => [x]
  | y :: ys => if x ≤ y then x :: y :: ys else y :: insertSorted x ys

/-- Insertion sort on rationals (models the sort inside pandas
`.median()`). -/
def sortQ (l : List ℚ) : List ℚ := l.foldr insertSorted []

/-- pandas `.median()`: sort, take the middle element (odd length) or the
mean of the two middle elements (even length). -/
def medianQ (l : List ℚ) : ℚ :=
  let s := sortQ l
  if s.length = 0 then 0
  else if s.length % 2 = 1 then s.getD (s.length / 2) 0
  else (s.getD (s.length / 2 - 1) 0 + s.getD (s.length / 2) 0) / 2

/-- numpy `np.mean` over a list of floats: nan on the empty list (with
only a RuntimeWarning), otherwise sum divided by length. -/
def meanP (l : List PFloat) : PFloat :=
  if l.length = 0 then PFloat.nan
  else PFloat.pdiv (l.foldr PFloat.padd (PFloat.fin 0)) (PFloat.fin (l.length : ℚ))

/-- Decidable equality for `Except`, used to state concrete evaluations. -/
instance {ε α : Type} [DecidableEq ε] [DecidableEq α] : DecidableEq (Except ε α) :=
  fun a b =>
    match a, b with
    | Except.error e1, Except.error e2 =>
        decidable_of_iff (e1 = e2) (by constructor <;> (intro h; simp_all))
    | Except.ok x, Except.ok y =>
        decidable_of_iff (x = y) (by constructor <;> (intro h; simp_all))
    | Except.error _, Except.ok _ => isFalse (fun h => Except.noConfusion h)
    | Except.ok _, Except.error _ => isFalse (fun h => Except.noConfusion h)

-- quick reduction sanity examples (kept: they pin the executable model)
example : roundHalfEven (5/2) = 2 := by norm_num [roundHalfEven, ratFloor]
example : roundP PFloat.inf = Except.error PyErr.overflowError := rfl
example : meanP [] = PFloat.nan := rfl

/-- One daily (or minute) OHLCV bar, fields named after the pandas
columns the source indexes (`Open`, `High`, `Low`, `Close`, `Volume`).
Finite numeric data, as delivered by yfinance. -/
structure Bar where
  Open : ℚ
  High : ℚ
  Low : ℚ
  Close : ℚ
  Volume : ℚ
  deriving DecidableEq

/-- Default bar backing `List.getD`; every theorem that reads index 48/49
carries a length hypothesis, so the default is never the value used. -/
def defaultBar : Bar := ⟨0, 0, 0, 0, 0⟩

/-- Abstract model of the transcendental numpy functions used by
`calculate_volatility`, together with the single IEEE fact the proofs
rely on. -/
structure NpFuns where
  log : PFloat → PFloat
  sqrt : PFloat → PFloat
  sqrt_nan : sqrt PFloat.nan = PFloat.nan

namespace DataCollector

/-- Lines 23-33: scrape of the market-cap field; every exception is
caught and degrades to the string sentinel. `fetched = none` models any
request/parse failure. -/
def get_market_cap (fetched : Option String) : String := fetched.getD "No data"

/-- Lines 35-45: scrape of the short-float field, same failure contract. -/
def get_short_float (fetched : Option String) : String := fetched.getD "No data"

/-- Lines 47-60: scrape of (industry, sector); returns the shorter of the
two, `"N/A"` on any failure. -/
def get_sector (fetched : Option (String × String)) : String :=
  match fetched with
  | none => "N/A"
  | some (industry, sector) => if industry.length ≤ sector.length then industry else sector

/-- Lines 62-73: scrape of the current price; any failure degrades to the
numeric sentinel `999`. -/
def get_current_price (fetched : Option ℚ) : ℚ :=
  match fetched with
  | none => 999
  | some cp => cp

/-- Line 85: `df = df[1:-1]` — drop the first bar (premarket volume
aggregate) and the last bar (MOC noise). -/
def trimBars (l : List Bar) : List Bar := (l.drop 1).dropLast

/-- Lines 75-93: `get_evidence_of_selling`.  `minute_bars = none` models a
failed yfinance download or date parse.  The pandas steps translate as:
`df['Volume'].max()` on a nonempty frame is the true maximum (on the
empty frame it is nan, which no volume equals, so the filter is empty);
`df[df['Volume'] == max]` keeps exactly the rows attaining it;
`.values[0]` takes the first such row, raising IndexError on the empty
selection, which the except-branch turns into `"No data"`. -/
def get_evidence_of_selling (minute_bars : Option (List Bar)) : String :=
  match minute_bars with
  | none => "No data"
  | some raw =>
      let df := trimBars raw
      match df with
      | [] => "No data"
      | b0 :: rest =>
          let maxVol := rest.foldl (fun acc b => max acc b.Volume) b0.Volume
          match (b0 :: rest).filter (fun b => b.Volume = maxVol) with
          | [] => "No data"
          | hb :: _ => if hb.Close ≤ hb.Open then "Yes" else "No"

/-- Lines 95-106: `calculate_volatility`.  Every step of the try-block is
a total numpy operation on float data (list-comprehension of
`np.log(cp[i] / cp[i-1])`, `np.mean` — nan on an empty list —,
`np.sqrt`, and `round(x, 2)` which passes nan/inf through), so for a
numeric closing-price window the except-branch that returns the string
`"No data"` is unreachable and the result is always `PyVal.num`. -/
def calculate_volatility (F : NpFuns) (closing_prices : List ℚ) : PyVal :=
  let log_returns :=
    (closing_prices.zip closing_prices.tail).map
      (fun pc => F.log (PFloat.pdiv (PFloat.fin pc.2) (PFloat.fin pc.1)))
  let avg_return := meanP log_returns
  let squared_deviations :=
    log_returns.map (fun r => PFloat.pmul (PFloat.psub r avg_return) (PFloat.psub r avg_return))
  let variance := meanP squared_deviations
  let historical_volatility := F.sqrt variance
  PyVal.num (round2P (PFloat.pmul (PFloat.pmul historical_volatility (F.sqrt (PFloat.fin 252))) (PFloat.fin 100)))

end DataCollector

namespace Watchlist

/-- Lines 115-125: `closest_number(close, high, low)` — true iff the
distance to the high is strictly smaller than the distance to the low.
On rational inputs neither `abs` nor `<` can raise, so the except-branch
(which would return `True`) is dead code here. -/
def closest_number (close high low : ℚ) : Bool :=
  if |close - high| < |close - low| then true else false

/-- Line 137: `(Open[49] - High[48]) / High[48] * 100`, numpy arithmetic
(a zero `High[48]` yields ±inf/nan silently, warning suppressed). -/
def gapOf (s : List Bar) : PFloat :=
  PFloat.pmul
    (PFloat.pdiv (PFloat.fin ((s.getD 49 defaultBar).Open - (s.getD 48 defaultBar).High))
      (PFloat.fin (s.getD 48 defaultBar).High))
    (PFloat.fin 100)

/-- Line 138: `Close[49] > Open[49]`. -/
def greenOf (s : List Bar) : Bool := (s.getD 49 defaultBar).Open < (s.getD 49 defaultBar).Close

/-- Line 139: `Volume[0:49].mean()` — the first 49 bars, positions 0..48. -/
def avgVolOf (s : List Bar) : ℚ := meanQ ((s.take 49).map Bar.Volume)

/-- Line 140: `Close[0:49].mean() * Volume[0:49].median()`. -/
def equityVolOf (s : List Bar) : ℚ :=
  meanQ ((s.take 49).map Bar.Close) * medianQ ((s.take 49).map Bar.Volume)

/-- Line 141: `Volume[49] / avg_vol` — numpy division, inf/nan on a zero
average volume. -/
def volRatioOf (s : List Bar) : PFloat :=
  PFloat.pdiv (PFloat.fin (s.getD 49 defaultBar).Volume) (PFloat.fin (avgVolOf s))

/-- Per-symbol responses of the external collaborators for one
evaluation; `none` components model fetch failures (each collaborator
catches its own exceptions, per lines 23-106). -/
structure Env where
  market_cap : Option String
  short_float : Option String
  sector : Option (String × String)
  current_price : Option ℚ
  minute_bars : Option (List Bar)
  deriving DecidableEq

/-- A printed report row, reduced to the data the run-level state needs:
which stock passed and the volatility value used by the sizzler check. -/
structure Row where
  stock : String
  vol : PyVal
  deriving DecidableEq

/-- Result of one `get_stock_data` evaluation that returned normally:
the passing row, if any, and how many collaborator fetches were made
(market cap, short float, sector, current price, minute bars). -/
structure Outcome where
  row : Option Row
  fetches : ℕ
  deriving DecidableEq

/-- Lines 128-162: `get_stock_data`.  Control-flow notes tied to the
source: a series shorter than 50 bars raises KeyError at the label `[49]`
on line 137, which the handler at line 159 swallows (silent skip).
Lines 137-141 are unconditional total numpy arithmetic.  Line 143
evaluates its four conjuncts left to right with short-circuit; the two
`round(...)` calls there raise OverflowError/ValueError on a non-finite
argument, and nothing catches those (only KeyError and IndexError are
handled).  The fetch branch performs exactly five collaborator calls,
then the final screen at line 152. -/
def get_stock_data (F : NpFuns) (env : Env) (stock : String) (s : List Bar) :
    Except PyErr Outcome :=
  if s.length < 50 then Except.ok ⟨none, 0⟩
  else
    let gap := gapOf s
    let green_initial_day := greenOf s
    let equity_vol := equityVolOf s
    let vol_ratio := volRatioOf s
    if green_initial_day then
      match roundP gap with
      | Except.error e => Except.error e
      | Except.ok rgap =>
          if 2 ≤ rgap then
            if 250000 ≤ equity_vol then
              match roundP vol_ratio with
              | Except.error e => Except.error e
              | Except.ok rratio =>
                  if 3 < rratio then
                    let _mc := DataCollector.get_market_cap env.market_cap
                    let _sf := DataCollector.get_short_float env.short_float
                    let _sector := DataCollector.get_sector env.sector
                    let current_price := DataCollector.get_current_price env.current_price
                    let evidence_of_selling := DataCollector.get_evidence_of_selling env.minute_bars
                    let vol := DataCollector.calculate_volatility F ((s.take 49).map Bar.Close)
                    let momentum :=
                      closest_number current_price (s.getD 49 defaultBar).High (s.getD 49 defaultBar).Low
                    if momentum && (evidence_of_selling == "No") then
                      Except.ok ⟨some ⟨stock, vol⟩, 5⟩
                    else
                      Except.ok ⟨none, 5⟩
                  else Except.ok ⟨none, 0⟩
            else Except.ok ⟨none, 0⟩
          else Except.ok ⟨none, 0⟩
    else Except.ok ⟨none, 0⟩

/-- Run-level mutable state of the `Watchlist` object (lines 112-113). -/
structure WState where
  stocks_in_play : ℕ
  sizzlers : List String
  deriving DecidableEq

/-- Lines 153-158, the state mutation for one passing row: increment the
counter, then `if vol > 100 and stock not in self.sizzlers: append`.
Comparing the string `"No data"` against `100` would raise TypeError
(uncaught in the source), modelled by the error case. -/
def record_pass (st : WState) (stock : String) (vol : PyVal) : Except PyErr WState :=
  let st1 : WState := ⟨st.stocks_in_play + 1, st.sizzlers⟩
  match vol with
  | PyVal.str _ => Except.error PyErr.typeError
  | PyVal.num v =>
      if PFloat.pgt v (PFloat.fin 100) && !(st1.sizzlers.contains stock) then
        Except.ok ⟨st1.stocks_in_play, st1.sizzlers ++ [stock]⟩
      else Except.ok st1

/-- One window-size batch (lines 173-175): evaluate every symbol, apply
the state mutation of each passing row.  A fault escaping one evaluation
escapes `asyncio.gather` and hence the whole batch, exactly as an
uncaught exception inside a gathered task does. -/
def run_batch (F : NpFuns) (data : ℕ → String → Env × List Bar) (i : ℕ) :
    List String → WState → Except PyErr WState
  | [], st => Except.ok st
  | stock :: rest, st =>
      match get_stock_data F (data i stock).1 stock (data i stock).2 with
      | Except.error e => Except.error e
      | Except.ok o =>
          match o.row with
          | none => run_batch F data i rest st
          | some row =>
              match record_pass st row.stock row.vol with
              | Except.error e => Except.error e
              | Except.ok st' => run_batch F data i rest st'

/-- Lines 169-176: the window loop, awaiting each batch before the next. -/
def run_windows (F : NpFuns) (data : ℕ → String → Env × List Bar) (stocks : List String) :
    List ℕ → WState → Except PyErr WState
  | [], st => Except.ok st
  | i :: rest, st =>
      match run_batch F data i stocks st with
      | Except.error e => Except.error e
      | Except.ok st' => run_windows F data stocks rest st'

/-- Lines 164-178: `main` — run windows 50..59 over the symbol universe,
then print the summary `(stocksInPlay, len(sizzlers))`.  An uncaught
exception in any task aborts the run before the summary. -/
def run_main (F : NpFuns) (data : ℕ → String → Env × List Bar) (stocks : List String) :
    Except PyErr (ℕ × ℕ) :=
  match run_windows F data stocks (List.range' 50 10) ⟨0, []⟩ with
  | Except.error e => Except.error e
  | Except.ok st => Except.ok (st.stocks_in_play, st.sizzlers.length)

end Watchlist

/-! Spec-side definitions, written from the specification's words, to be
compared with the source-derived definitions above. -/

/-- Modelled from the spec (section 3 / C2): the gap computed from the
series' last element ("today") and second-to-last element ("yesterday"),
whatever the window length. -/
def gapLastOf (s : List Bar) : PFloat :=
  PFloat.pmul
    (PFloat.pdiv
      (PFloat.fin ((s.getD (s.length - 1) defaultBar).Open - (s.getD (s.length - 2) defaultBar).High))
      (PFloat.fin (s.getD (s.length - 2) defaultBar).High))
    (PFloat.fin 100)

/-- Modelled from the spec (C2): the green-day test evaluated on the
series' last element. -/
def greenLastOf (s : List Bar) : Bool :=
  (s.getD (s.length - 1) defaultBar).Open < (s.getD (s.length - 1) defaultBar).Close

/-- Modelled from the spec (C7): the first bar attaining the maximal
volume of the list ("ties: first occurrence"), if the list is nonempty. -/
def firstMaxBar : List Bar → Option Bar
  | [] => none
  | b :: rest =>
      match firstMaxBar rest with
      | none => some b
      | some m => if m.Volume ≤ b.Volume then some b else some m

/-- Modelled from the spec (C7): `sellingPressureFlag` — trim the first
and last bar, locate the first bar with the single highest volume, flag
`"Yes"` iff its open ≥ its close, and report `"no data"` when the series
is missing or empty after trimming. -/
def sellingPressureFlag (minute_bars : Option (List Bar)) : String :=
  match minute_bars with
  | none => "No data"
  | some raw =>
      match firstMaxBar (DataCollector.trimBars raw) with
      | none => "No data"
      | some b => if b.Close ≤ b.Open then "Yes" else "No"

/-! Trace semantics for the batch orchestration (claim C9).  A task's
externally visible behaviour is the list of events it emits; a batch is
any cooperative interleaving of its tasks' event lists; the run is the
concatenation of the batches in window order, because line 175 awaits
`asyncio.gather` on one window's tasks before line 169 advances. -/

/-- An observable event of one symbol's evaluation, tagged with the
window size and symbol that produced it. -/
inductive Ev where
  | start (window : ℕ) (stock : String)
  | fetch (window : ℕ) (stock : String)
  | row (window : ℕ) (stock : String)
  deriving DecidableEq

/-- The window size an event belongs to. -/
def Ev.window : Ev → ℕ
  | Ev.start w _ => w
  | Ev.fetch w _ => w
  | Ev.row w _ => w

/-- Events of one `get_stock_data` task: it starts, performs its fetches,
and prints its row if one passes (an errored task just stops early —
its events are a prefix, which the interleaving relation absorbs since
we only need that every event carries the task's window tag). -/
def taskEvents (i : ℕ) (stock : String) : Except PyErr Watchlist.Outcome → List Ev
  | Except.error _ => [Ev.start i stock]
  | Except.ok o =>
      Ev.start i stock ::
        (List.replicate o.fetches (Ev.fetch i stock) ++
          match o.row with
          | some _ => [Ev.row i stock]
          | none => [])

/-- Cooperative interleaving: `Sched ls out` holds when `out` is a merge
of the task event lists `ls`, each task's own order preserved — every
schedule the asyncio event loop can produce for one gathered batch. -/
inductive Sched : List (List Ev) → List Ev → Prop
  | nil (ls : List (List Ev)) (h : ∀ l ∈ ls, l = []) : Sched ls []
  | step (ls1 : List (List Ev)) (x : Ev) (xs : List Ev) (ls2 : List (List Ev))
      (out : List Ev) (hs : Sched (ls1 ++ xs :: ls2) out) :
      Sched (ls1 ++ (x :: xs) :: ls2) (x :: out)

/-- The event lists of one window-size batch. -/
def windowTaskLists (F : NpFuns) (data : ℕ → String → Watchlist.Env × List Bar)
    (stocks : List String) (i : ℕ) : List (List Ev) :=
  stocks.map (fun stock =>
    taskEvents i stock (Watchlist.get_stock_data F (data i stock).1 stock (data i stock).2))

/-- A full-run trace: some interleaving for each window's batch, the
batches concatenated in window order 50..59 (line 175's `await
asyncio.gather` separates them). -/
def MainTraceRel (F : NpFuns) (data : ℕ → String → Watchlist.Env × List Bar)
    (stocks : List String) (t : List Ev) : Prop :=
  ∃ bt : ℕ → List Ev,
    (∀ i, Sched (windowTaskLists F data stocks i) (bt i)) ∧
    t = (List.range' 50 10).foldr (fun i acc => bt i ++ acc) []

/-! Helper lemmas (shared across claims). -/

theorem pmul_nan_left (x : PFloat) : PFloat.pmul PFloat.nan x = PFloat.nan := by
  cases x <;> rfl

theorem pmul_nan_right (x : PFloat) : PFloat.pmul x PFloat.nan = PFloat.nan := by
  cases x <;> rfl

theorem sum_zero_of_nonneg :
    ∀ (l : List ℚ), (∀ x ∈ l, 0 ≤ x) → l.sum = 0 → ∀ x ∈ l, x = 0 := by
  intro l
  induction l with
  | nil => intro _ _ x hx; cases hx
  | cons y t ih =>
      intro hnn hsum x hx
      have hy : 0 ≤ y := hnn y (List.mem_cons_self y t)
      have ht : 0 ≤ t.sum := List.sum_nonneg (fun z hz => hnn z (List.mem_cons_of_mem y hz))
      rw [List.sum_cons] at hsum
      have hy0 : y = 0 := by linarith
      have ht0 : t.sum = 0 := by linarith
      rcases List.mem_cons.mp hx with h | h
      · rw [h, hy0]
      · exact ih (fun z hz => hnn z (List.mem_cons_of_mem y hz)) ht0 x h

theorem mem_insertSorted {x a : ℚ} {l : List ℚ} :
    a ∈ insertSorted x l → a = x ∨ a ∈ l := by
  induction l with
  | nil => simp [insertSorted]
  | cons y ys ih =>
      simp only [insertSorted]
      split
      · intro h
        rcases List.mem_cons.mp h with h | h
        · exact Or.inl h
        · exact Or.inr h
      · intro h
        rcases List.mem_cons.mp h with h | h
        · exact Or.inr (by simp [h])
        · rcases ih h with h | h
          · exact Or.inl h
          · exact Or.inr (by simp [h])

theorem mem_sortQ {a : ℚ} {l : List ℚ} : a ∈ sortQ l → a ∈ l := by
  induction l with
  | nil => simp [sortQ]
  | cons y ys ih =>
      intro h
      rcases mem_insertSorted h with h | h
      · simp [h]
      · exact List.mem_cons.mpr (Or.inr (ih h))

theorem getD_zero_of_all_zero {l : List ℚ} (h : ∀ x ∈ l, x = 0) (i : ℕ) :
    l.getD i 0 = 0 := by
  by_cases hi : i < l.length
  · rw [List.getD_eq_getElem l 0 hi]
    exact h _ (l.getElem_mem hi)
  · rw [List.getD_eq_default l 0 (by omega)]

theorem medianQ_zero {l : List ℚ} (h : ∀ x ∈ l, x = 0) : medianQ l = 0 := by
  have hs : ∀ x ∈ sortQ l, x = 0 := fun x hx => h x (mem_sortQ hx)
  unfold medianQ
  simp only
  split
  · rfl
  · split
    · exact getD_zero_of_all_zero hs _
    · rw [getD_zero_of_all_zero hs _, getD_zero_of_all_zero hs _]
      norm_num

/-- Concrete instantiation of the abstract numpy transcendentals, used by
the closed evaluations below (its values never matter to the claims). -/
def F0 : NpFuns := ⟨fun _ => PFloat.nan, fun x => x, rfl⟩

/-! Claim C4: `momentumFlag` tie behaviour. -/

/-- C4 counterexample: at the claim's own equidistant example
`momentumFlag(100, 110, 90)` (both distances are 10) the source's
`closest_number` returns `false`, while the claim says ties break toward
`true`. -/
theorem c4_counterexample : Watchlist.closest_number 100 110 90 = false := by
  unfold Watchlist.closest_number
  have h1 : |(100:ℚ) - 110| = 10 := by
    rw [show (100:ℚ) - 110 = -10 by norm_num, abs_neg, abs_of_nonneg] <;> norm_num
  have h2 : |(100:ℚ) - 90| = 10 := by
    rw [show (100:ℚ) - 90 = 10 by norm_num, abs_of_nonneg] <;> norm_num
  rw [h1, h2]
  norm_num

/-- C4 amended: `momentumFlag(price, high, low)` is true exactly when
`|price − high| < |price − low|` — strictly; equal distances (and the
strictly-greater case) return `false`, because line 119's `<` comparison
fails on ties. -/
theorem c4_momentum_strict (close high low : ℚ) :
    Watchlist.closest_number close high low = true ↔ |close - high| < |close - low| := by
  unfold Watchlist.closest_number
  split
  · simp_all
  · simp_all

/-! Claim C10: the 999 price sentinel always satisfies the momentum
screen when the session high is below it. -/

/-- C10: a failed current-price fetch returns the numeric sentinel `999`
(line 73), and for any session with `low < high < 999` the momentum flag
computed from that sentinel is `true`: 999 is strictly closer to the high
than to the low, so a price-fetch failure can never fail the momentum
screen for such a session. -/
theorem c10_sentinel_momentum (high low : ℚ) (h1 : low < high) (h2 : high < 999) :
    DataCollector.get_current_price none = 999 ∧
      Watchlist.closest_number (DataCollector.get_current_price none) high low = true := by
  refine ⟨rfl, ?_⟩
  have hp : DataCollector.get_current_price none = 999 := rfl
  rw [hp, Watchlist.closest_number]
  have hh : |(999:ℚ) - high| = 999 - high := abs_of_nonneg (by linarith)
  have hl : |(999:ℚ) - low| = 999 - low := abs_of_nonneg (by linarith)
  rw [hh, hl, if_pos (by linarith)]

/-- C10 witness: the theorem applied at the concrete session
high = 100, low = 90. -/
theorem c10_sentinel_momentum_witness :
    (90:ℚ) < 100 ∧ (100:ℚ) < 999 ∧
      (DataCollector.get_current_price none = 999 ∧
        Watchlist.closest_number (DataCollector.get_current_price none) 100 90 = true) :=
  ⟨by norm_num, by norm_num, c10_sentinel_momentum 100 90 (by norm_num) (by norm_num)⟩

/-! Claim C5: `calculate_volatility` on fewer than 2 prices. -/

/-- C5 counterexample: on the empty closing-price window the source's
`calculate_volatility` returns the numeric float nan (every numpy step of
its try-block is total: the log-return list is empty, `np.mean([])` is
nan with only a RuntimeWarning, and `round(nan, 2)` is nan), not the
string sentinel `"No data"`, which only its except-branch — never reached
here — would produce. -/
theorem c5_counterexample :
    DataCollector.calculate_volatility F0 [] = PyVal.num PFloat.nan ∧
      PyVal.num PFloat.nan ≠ PyVal.str "No data" := by
  constructor
  · rfl
  · intro h
    cases h

/-- C5 amended: for every model of the numpy transcendentals and every
closing-price window of fewer than 2 prices, `calculate_volatility`
returns the numeric nan — never an exception, but also never the claimed
`"No data"` sentinel and not zero. -/
theorem c5_short_window_nan (F : NpFuns) (prices : List ℚ) (h : prices.length < 2) :
    DataCollector.calculate_volatility F prices = PyVal.num PFloat.nan := by
  match prices with
  | [] =>
      unfold DataCollector.calculate_volatility
      simp only [List.zip_nil_left, List.map_nil, meanP, List.length_nil, if_true,
        eq_self_iff_true]
      rw [F.sqrt_nan, pmul_nan_left, pmul_nan_left]
      rfl
  | [x] =>
      unfold DataCollector.calculate_volatility
      simp only [List.tail_cons, List.zip_nil_right, List.map_nil, meanP, List.length_nil,
        if_true, eq_self_iff_true]
      rw [F.sqrt_nan, pmul_nan_left, pmul_nan_left]
      rfl
  | a :: b :: t =>
      simp only [List.length_cons] at h
      omega

/-- C5 witness: the amended theorem evaluated on the concrete
single-price window `[5]`. -/
theorem c5_short_window_nan_witness :
    [(5:ℚ)].length < 2 ∧
      DataCollector.calculate_volatility F0 [(5:ℚ)] = PyVal.num PFloat.nan :=
  ⟨by norm_num, c5_short_window_nan F0 [(5:ℚ)] (by norm_num)⟩

/-! Claim C2: "today" addressing across window sizes. -/

/-- A green baseline bar used by the C2 counterexample series. -/
def c2base : Bar := ⟨1, 1, 1, 2, 1⟩

/-- A red final bar whose open gaps far above the prior high. -/
def c2last : Bar := ⟨10, 1, 1, 1, 1⟩

/-- The 51-bar series a `period='51d'` request yields (window size 51). -/
def c2series : List Bar := List.replicate 50 c2base ++ [c2last]

/-- C2 counterexample: at window size 51 the series has 51 bars, but the
code's gap and green-day test (fixed indices 49/48, line 137-138) do not
use the last and second-to-last bars: the gap of `c2series` computed by
the source is 0 while the last-two-bars gap is 900, and the green-day
test looks at bar 49 (green) instead of the last bar (red). -/
theorem c2_counterexample :
    c2series.length = 51 ∧
      Watchlist.gapOf c2series ≠ gapLastOf c2series ∧
      Watchlist.greenOf c2series ≠ greenLastOf c2series := by
  have hlen : c2series.length = 51 := by
    simp [c2series, List.length_append, List.length_replicate]
  have h49 : c2series.getD 49 defaultBar = c2base := by
    rw [c2series, List.getD_append _ _ defaultBar 49 (by simp)]
    simp [List.getD, c2base]
  have h48 : c2series.getD 48 defaultBar = c2base := by
    rw [c2series, List.getD_append _ _ defaultBar 48 (by simp)]
    simp [List.getD, c2base]
  have h50 : c2series.getD 50 defaultBar = c2last := by
    rw [c2series, List.getD_append_right _ _ defaultBar 50 (by simp)]
    simp [List.getD]
  have e1 : Watchlist.gapOf c2series = PFloat.fin 0 := by
    unfold Watchlist.gapOf
    rw [h49, h48]
    norm_num [c2base, PFloat.pdiv, PFloat.pmul]
  have e2 : gapLastOf c2series = PFloat.fin 900 := by
    unfold gapLastOf
    rw [hlen, show (51:ℕ) - 1 = 50 from by norm_num, show (51:ℕ) - 2 = 49 from by norm_num,
      h49, h50]
    norm_num [c2base, c2last, PFloat.pdiv, PFloat.pmul]
  have e3 : Watchlist.greenOf c2series = true := by
    unfold Watchlist.greenOf
    rw [h49]
    norm_num [c2base]
  have e4 : greenLastOf c2series = false := by
    unfold greenLastOf
    rw [hlen, show (51:ℕ) - 1 = 50 from by norm_num, h50]
    norm_num [c2last]
  refine ⟨hlen, ?_, ?_⟩
  · rw [e1, e2]
    intro h
    rw [PFloat.fin.injEq] at h
    norm_num at h
  · rw [e3, e4]
    intro h
    cases h

/-- C2 amended: the code always reads "today" at position 49 and
"yesterday" at position 48; these coincide with the last and
second-to-last bars exactly when the returned series has 50 bars, so the
claim's property holds for window size 50 only.  For a 50-bar series the
source's gap and green-day test agree with the last-two-bars versions. -/
theorem c2_fixed_index_is_last_only_at_50 (s : List Bar) (h : s.length = 50) :
    Watchlist.gapOf s = gapLastOf s ∧ Watchlist.greenOf s = greenLastOf s := by
  constructor
  · unfold Watchlist.gapOf gapLastOf
    rw [h]
  · unfold Watchlist.greenOf greenLastOf
    rw [h]

/-- C2 witness: the amended theorem applied to a concrete 50-bar series. -/
theorem c2_fixed_index_witness :
    (List.replicate 50 c2base).length = 50 ∧
      (Watchlist.gapOf (List.replicate 50 c2base) = gapLastOf (List.replicate 50 c2base) ∧
        Watchlist.greenOf (List.replicate 50 c2base) = greenLastOf (List.replicate 50 c2base)) :=
  ⟨by simp, c2_fixed_index_is_last_only_at_50 _ (by simp)⟩

/-! Claim C7: `get_evidence_of_selling` refines the spec's
`sellingPressureFlag`. -/

theorem foldl_max_shift (l : List Bar) :
    ∀ (a b : ℚ), l.foldl (fun acc x => max acc x.Volume) (max a b) =
      max a (l.foldl (fun acc x => max acc x.Volume) b) := by
  induction l with
  | nil => intro a b; rfl
  | cons c t ih =>
      intro a b
      simp only [List.foldl_cons]
      rw [max_assoc, ih]

theorem firstMaxBar_cons (b : Bar) (rest : List Bar) :
    firstMaxBar (b :: rest) = match firstMaxBar rest with
      | none => some b
      | some m => if m.Volume ≤ b.Volume then some b else some m := rfl

theorem firstMaxBar_isSome (b : Bar) (rest : List Bar) :
    ∃ m, firstMaxBar (b :: rest) = some m := by
  simp only [firstMaxBar]
  cases hfm : firstMaxBar rest with
  | none => exact ⟨b, rfl⟩
  | some m' =>
      simp only
      by_cases hle : m'.Volume ≤ b.Volume
      · exact ⟨b, by rw [if_pos hle]⟩
      · exact ⟨m', by rw [if_neg hle]⟩

theorem firstMaxBar_volume :
    ∀ (rest : List Bar) (b m : Bar), firstMaxBar (b :: rest) = some m →
      m.Volume = rest.foldl (fun acc x => max acc x.Volume) b.Volume := by
  intro rest
  induction rest with
  | nil =>
      intro b m hm
      simp only [firstMaxBar] at hm
      cases hm
      rfl
  | cons r rt ih =>
      intro b m hm
      obtain ⟨m', hm'⟩ := firstMaxBar_isSome r rt
      have hM' : m'.Volume = rt.foldl (fun acc x => max acc x.Volume) r.Volume := ih r m' hm'
      have hfold : (r :: rt).foldl (fun acc x => max acc x.Volume) b.Volume =
          max b.Volume m'.Volume := by
        simp only [List.foldl_cons]
        rw [foldl_max_shift, hM']
      rw [hfold]
      rw [firstMaxBar_cons, hm'] at hm
      simp only at hm
      by_cases hle : m'.Volume ≤ b.Volume
      · rw [if_pos hle] at hm
        cases hm
        exact (max_eq_left hle).symm
      · rw [if_neg hle] at hm
        cases hm
        exact (max_eq_right (le_of_not_le hle)).symm

theorem filter_head_of_firstMaxBar :
    ∀ (rest : List Bar) (b m : Bar), firstMaxBar (b :: rest) = some m →
      ∃ t, (b :: rest).filter
          (fun x => decide (x.Volume = rest.foldl (fun acc x => max acc x.Volume) b.Volume)) =
        m :: t := by
  intro rest
  induction rest with
  | nil =>
      intro b m hm
      simp only [firstMaxBar] at hm
      cases hm
      exact ⟨[], by simp [List.filter]⟩
  | cons r rt ih =>
      intro b m hm
      obtain ⟨m', hm'⟩ := firstMaxBar_isSome r rt
      have hM' : m'.Volume = rt.foldl (fun acc x => max acc x.Volume) r.Volume :=
        firstMaxBar_volume rt r m' hm'
      have hfold : (r :: rt).foldl (fun acc x => max acc x.Volume) b.Volume =
          max b.Volume m'.Volume := by
        simp only [List.foldl_cons]
        rw [foldl_max_shift, hM']
      rw [firstMaxBar_cons, hm'] at hm
      simp only at hm
      by_cases hle : m'.Volume ≤ b.Volume
      · rw [if_pos hle] at hm
        cases hm
        have hMeq : (r :: rt).foldl (fun acc x => max acc x.Volume) b.Volume = b.Volume := by
          rw [hfold]; exact max_eq_left hle
        simp only [hMeq]
        refine ⟨(r :: rt).filter (fun x => decide (x.Volume = b.Volume)), ?_⟩
        rw [List.filter_cons, if_pos (by simp)]
      · rw [if_neg hle] at hm
        cases hm
        have hlt : b.Volume < m.Volume := lt_of_not_le hle
        have hMeq : (r :: rt).foldl (fun acc x => max acc x.Volume) b.Volume = m.Volume := by
          rw [hfold]; exact max_eq_right (le_of_lt hlt)
        simp only [hMeq]
        obtain ⟨t, ht⟩ := ih r m hm'
        rw [← hM'] at ht
        refine ⟨t, ?_⟩
        rw [List.filter_cons, if_neg (by simp [ne_of_lt hlt])]
        exact ht

/-- C7: the source's `get_evidence_of_selling` (trim first and last bar,
filter on the maximal volume, take the first row, compare open and
close, `"No data"` on a missing or empty-after-trim series) computes the
spec's `sellingPressureFlag` on every input. -/
theorem c7_selling_pressure_refines (mb : Option (List Bar)) :
    DataCollector.get_evidence_of_selling mb = sellingPressureFlag mb := by
  cases mb with
  | none => rfl
  | some raw =>
      unfold DataCollector.get_evidence_of_selling sellingPressureFlag
      simp only
      rcases hdf : DataCollector.trimBars raw with _ | ⟨b0, rest⟩
      · rfl
      · obtain ⟨m, hm⟩ := firstMaxBar_isSome b0 rest
        obtain ⟨t, ht⟩ := filter_head_of_firstMaxBar rest b0 m hm
        simp only [hm, ht]

/-! Claim C8: the sizzlers accumulator never holds duplicates. -/

/-- The run-level state updates of a whole run, as the sequence of
passing evaluations (symbol, computed volatility) in completion order;
each one applies lines 156-158 via `record_pass`. -/
def Watchlist.run_passes :
    List (String × PFloat) → Watchlist.WState → Except PyErr Watchlist.WState
  | [], st => Except.ok st
  | e :: rest, st =>
      match Watchlist.record_pass st e.1 (PyVal.num e.2) with
      | Except.error err => Except.error err
      | Except.ok st' => Watchlist.run_passes rest st'

theorem count_mem_nodup {l : List String} (h : l.Nodup) (a : String) :
    l.count a = if a ∈ l then 1 else 0 := by
  by_cases hm : a ∈ l
  · rw [if_pos hm]
    have h1 : l.count a ≤ 1 := List.nodup_iff_count_le_one.mp h a
    have h2 : 0 < l.count a := List.count_pos_iff.mpr hm
    omega
  · rw [if_neg hm]
    exact List.count_eq_zero.mpr hm

theorem run_passes_invariant :
    ∀ (evs : List (String × PFloat)) (st : Watchlist.WState), st.sizzlers.Nodup →
      ∃ st', Watchlist.run_passes evs st = Except.ok st' ∧ st'.sizzlers.Nodup ∧
        ∀ stock : String, st'.sizzlers.count stock =
          if stock ∈ st.sizzlers ∨
              (∃ e ∈ evs, e.1 = stock ∧ PFloat.pgt e.2 (PFloat.fin 100) = true)
          then 1 else 0 := by
  intro evs
  induction evs with
  | nil =>
      intro st hnd
      refine ⟨st, rfl, hnd, ?_⟩
      intro stock
      rw [count_mem_nodup hnd stock]
      refine if_congr ?_ rfl rfl
      simp
  | cons e rest ih =>
      intro st hnd
      obtain ⟨stock', v⟩ := e
      simp only [Watchlist.run_passes, Watchlist.record_pass]
      by_cases hcond : (PFloat.pgt v (PFloat.fin 100) && !(st.sizzlers.contains stock')) = true
      · rw [if_pos hcond]
        simp only
        have hboth := hcond
        simp only [Bool.and_eq_true] at hboth
        have hpgt : PFloat.pgt v (PFloat.fin 100) = true := hboth.1
        have hnotmem : stock' ∉ st.sizzlers := by
          have h2 := hboth.2
          simp only [Bool.not_eq_true'] at h2
          simpa [List.contains, List.elem_eq_mem] using h2
        have hdisj : st.sizzlers.Disjoint [stock'] := by
          intro a ha hb
          rw [List.mem_singleton] at hb
          subst hb
          exact hnotmem ha
        have hnd2 : (st.sizzlers ++ [stock']).Nodup := by
          rw [List.nodup_append]
          exact ⟨hnd, List.nodup_singleton stock', hdisj⟩
        obtain ⟨st', hrun, hnd', hcount⟩ :=
          ih ⟨st.stocks_in_play + 1, st.sizzlers ++ [stock']⟩ hnd2
        refine ⟨st', hrun, hnd', ?_⟩
        intro stock
        rw [hcount stock]
        refine if_congr ?_ rfl rfl
        simp only [List.mem_append, List.mem_cons, List.not_mem_nil, or_false]
        constructor
        · rintro (⟨hm | he⟩ | ⟨e, hee, he1, he2⟩)
          · exact Or.inl hm
          · exact Or.inr ⟨(stock', v), Or.inl rfl, by rw [he], hpgt⟩
          · exact Or.inr ⟨e, Or.inr hee, he1, he2⟩
        · rintro (hm | ⟨e, (hee | hee), he1, he2⟩)
          · exact Or.inl (Or.inl hm)
          · refine Or.inl (Or.inr ?_)
            rw [hee] at he1
            exact he1.symm
          · exact Or.inr ⟨e, hee, he1, he2⟩
      · rw [if_neg hcond]
        obtain ⟨st', hrun, hnd', hcount⟩ := ih ⟨st.stocks_in_play + 1, st.sizzlers⟩ hnd
        refine ⟨st', hrun, hnd', ?_⟩
        intro stock
        rw [hcount stock]
        refine if_congr ?_ rfl rfl
        have hcases : PFloat.pgt v (PFloat.fin 100) = false ∨ stock' ∈ st.sizzlers := by
          by_contra hc
          push_neg at hc
          obtain ⟨h1, h2⟩ := hc
          simp only [Bool.not_eq_false] at h1
          refine hcond ?_
          rw [Bool.and_eq_true, h1]
          refine ⟨rfl, ?_⟩
          simp [List.contains, List.elem_eq_mem, h2]
        simp only [List.mem_cons]
        constructor
        · rintro (hm | ⟨e, hee, he1, he2⟩)
          · exact Or.inl hm
          · exact Or.inr ⟨e, Or.inr hee, he1, he2⟩
        · rintro (hm | ⟨e, (hee | hee), he1, he2⟩)
          · exact Or.inl hm
          · rcases hcases with hp | hc2
            · rw [hee] at he2
              rw [hp] at he2
              cases he2
            · rw [hee] at he1
              rw [← he1]
              exact Or.inl hc2
          · exact Or.inr ⟨e, hee, he1, he2⟩

/-- C8: over any completion-ordered sequence of passing evaluations
(starting from the fresh run state of lines 112-113), the run's state
updates succeed and leave a duplicate-free `sizzlers` list in which a
symbol appears exactly once iff some passing evaluation of the run (in
any window-size batch) computed a volatility above 100 for it — so a
re-qualifying symbol is never inserted twice. -/
theorem c8_sizzlers_exactly_once (evs : List (String × PFloat)) (stock : String) :
    ∃ st, Watchlist.run_passes evs ⟨0, []⟩ = Except.ok st ∧ st.sizzlers.Nodup ∧
      st.sizzlers.count stock =
        (if ∃ e ∈ evs, e.1 = stock ∧ PFloat.pgt e.2 (PFloat.fin 100) = true
          then 1 else 0) := by
  obtain ⟨st, hrun, hnd, hcount⟩ := run_passes_invariant evs ⟨0, []⟩ List.nodup_nil
  refine ⟨st, hrun, hnd, ?_⟩
  rw [hcount stock]
  refine if_congr ?_ rfl rfl
  simp

/-! Claim C6: the initial numeric screen gates all fetching. -/

/-- C6: whenever the two `round` calls of line 143 produce integers
(`rg` for the gap, `rv` for the volume ratio), the evaluation returns
normally, its five collaborator fetches happen iff all four
initial-screen conditions hold (green day, `rg ≥ 2`,
equity-volume ≥ 250000, `rv > 3`), an evaluation that fetched nothing
also produced no row (hence no counter change), and in particular a
volume ratio that rounds to exactly 3 yields no fetch, no row, and no
state change. -/
theorem c6_fetch_gate (F : NpFuns) (env : Watchlist.Env) (stock : String) (s : List Bar)
    (rg rv : ℤ) (hlen : ¬ s.length < 50)
    (hg : roundP (Watchlist.gapOf s) = Except.ok rg)
    (hv : roundP (Watchlist.volRatioOf s) = Except.ok rv) :
    ∃ o, Watchlist.get_stock_data F env stock s = Except.ok o ∧
      (o.fetches ≠ 0 ↔
        (Watchlist.greenOf s = true ∧ 2 ≤ rg ∧ 250000 ≤ Watchlist.equityVolOf s ∧ 3 < rv)) ∧
      (o.fetches = 0 → o.row = none) ∧
      (rv = 3 → o = ⟨none, 0⟩) := by
  unfold Watchlist.get_stock_data
  rw [if_neg hlen]
  simp only
  by_cases hgreen : Watchlist.greenOf s = true
  · rw [if_pos hgreen, hg]
    simp only
    by_cases h2 : 2 ≤ rg
    · rw [if_pos h2]
      by_cases heq : 250000 ≤ Watchlist.equityVolOf s
      · rw [if_pos heq, hv]
        simp only
        by_cases h3 : 3 < rv
        · rw [if_pos h3]
          by_cases hmom :
              (Watchlist.closest_number (DataCollector.get_current_price env.current_price)
                  (s.getD 49 defaultBar).High (s.getD 49 defaultBar).Low &&
                (DataCollector.get_evidence_of_selling env.minute_bars == "No")) = true
          · rw [if_pos hmom]
            refine ⟨⟨some ⟨stock, DataCollector.calculate_volatility F ((s.take 49).map Bar.Close)⟩, 5⟩,
              rfl, ?_, ?_, ?_⟩
            · constructor
              · intro _
                exact ⟨hgreen, h2, heq, h3⟩
              · intro _
                norm_num
            · intro h
              norm_num at h
            · intro hrv3
              rw [hrv3] at h3
              norm_num at h3
          · rw [if_neg hmom]
            refine ⟨⟨none, 5⟩, rfl, ?_, ?_, ?_⟩
            · constructor
              · intro _
                exact ⟨hgreen, h2, heq, h3⟩
              · intro _
                norm_num
            · intro h
              norm_num at h
            · intro hrv3
              rw [hrv3] at h3
              norm_num at h3
        · rw [if_neg h3]
          refine ⟨⟨none, 0⟩, rfl, ?_, ?_, ?_⟩
          · simp [h3]
          · intro _
            rfl
          · intro _
            rfl
      · rw [if_neg heq]
        refine ⟨⟨none, 0⟩, rfl, ?_, ?_, ?_⟩
        · simp [heq]
        · intro _
          rfl
        · intro _
          rfl
    · rw [if_neg h2]
      refine ⟨⟨none, 0⟩, rfl, ?_, ?_, ?_⟩
      · simp [h2]
      · intro _
        rfl
      · intro _
        rfl
  · rw [if_neg hgreen]
    refine ⟨⟨none, 0⟩, rfl, ?_, ?_, ?_⟩
    · simp [hgreen]
    · intro _
      rfl
    · intro _
      rfl

theorem ratFloor_eq_intFloor (q : ℚ) : ratFloor q = ⌊q⌋ := by
  rw [Rat.floor_def]
  rfl

/-- Collaborator responses where every fetch failed; the screening logic
must degrade, never raise. -/
def env0 : Watchlist.Env := ⟨none, none, none, none, none⟩

/-- Baseline bar of the concrete C6 scenario: flat at 100 with volume
100000. -/
def c6base : Bar := ⟨100, 100, 100, 100, 100000⟩

/-- Final bar of the concrete C6 scenario: a green day gapping 3 % above
the prior high, with today's volume 3.2× the baseline (rounding to 3). -/
def c6bar : Bar := ⟨103, 105, 100, 104, 320000⟩

/-- The 50-bar series of the concrete C6 scenario. -/
def c6series : List Bar := List.replicate 49 c6base ++ [c6bar]

theorem c6series_getD49 : c6series.getD 49 defaultBar = c6bar := by
  rw [c6series, List.getD_append_right _ _ defaultBar 49 (by simp)]
  simp [List.getD]

theorem c6series_getD48 : c6series.getD 48 defaultBar = c6base := by
  rw [c6series, List.getD_append _ _ defaultBar 48 (by simp)]
  simp [List.getD, c6base]

theorem c6series_take49 : c6series.take 49 = List.replicate 49 c6base := by
  rw [c6series]
  exact List.take_left' (by simp)

theorem c6_roundgap : roundP (Watchlist.gapOf c6series) = Except.ok 3 := by
  unfold Watchlist.gapOf
  rw [c6series_getD49, c6series_getD48]
  rw [show c6bar.Open - c6base.High = 3 by norm_num [c6bar, c6base]]
  simp only [PFloat.pdiv, PFloat.pmul]
  rw [if_neg (by norm_num [c6base])]
  rw [show (3 : ℚ) / c6base.High = 3/100 by norm_num [c6base]]
  simp only [roundP]
  rw [show (3 : ℚ) / 100 * 100 = 3 by norm_num]
  rw [show roundHalfEven 3 = 3 by
    simp only [roundHalfEven, ratFloor_eq_intFloor]
    norm_num]

theorem c6_avgvol : Watchlist.avgVolOf c6series = 100000 := by
  unfold Watchlist.avgVolOf
  rw [c6series_take49]
  rw [List.map_replicate]
  unfold meanQ
  rw [List.sum_replicate]
  simp [c6base, nsmul_eq_mul]

theorem c6_roundratio : roundP (Watchlist.volRatioOf c6series) = Except.ok 3 := by
  unfold Watchlist.volRatioOf
  rw [c6series_getD49, c6_avgvol]
  simp only [PFloat.pdiv]
  rw [if_neg (by norm_num)]
  rw [show c6bar.Volume / (100000:ℚ) = 16/5 by norm_num [c6bar]]
  simp only [roundP]
  rw [show roundHalfEven (16/5) = 3 by
    simp only [roundHalfEven, ratFloor_eq_intFloor]
    norm_num]

/-- C6 witness: the gate theorem applied to the concrete 50-bar series
whose gap rounds to 3 and whose volume ratio rounds to exactly 3. -/
theorem c6_fetch_gate_witness :
    (¬ c6series.length < 50) ∧
      roundP (Watchlist.gapOf c6series) = Except.ok 3 ∧
      roundP (Watchlist.volRatioOf c6series) = Except.ok 3 ∧
      (∃ o, Watchlist.get_stock_data F0 env0 "ACME" c6series = Except.ok o ∧
        (o.fetches ≠ 0 ↔
          (Watchlist.greenOf c6series = true ∧ 2 ≤ (3:ℤ) ∧
            250000 ≤ Watchlist.equityVolOf c6series ∧ (3:ℤ) < 3)) ∧
        (o.fetches = 0 → o.row = none) ∧
        ((3:ℤ) = 3 → o = ⟨none, 0⟩)) :=
  ⟨by simp [c6series], c6_roundgap, c6_roundratio,
    c6_fetch_gate F0 env0 "ACME" c6series 3 3 (by simp [c6series]) c6_roundgap c6_roundratio⟩

/-! Claim C3: zero average volume — infinity, short-circuit, no raise. -/

/-- A baseline bar with zero traded volume. -/
def c3zero : Bar := ⟨1, 1, 1, 1, 0⟩

/-- A final green bar with positive volume over the zero-volume baseline. -/
def c3bar : Bar := ⟨1, 1, 1, 2, 5⟩

/-- The 50-bar series whose 49-bar volume baseline is all zeros. -/
def c3series : List Bar := List.replicate 49 c3zero ++ [c3bar]

theorem c3series_take49 : c3series.take 49 = List.replicate 49 c3zero := by
  rw [c3series]
  exact List.take_left' (by simp)

theorem c3series_getD49 : c3series.getD 49 defaultBar = c3bar := by
  rw [c3series, List.getD_append_right _ _ defaultBar 49 (by simp)]
  simp [List.getD]

theorem c3_avgvol_zero : Watchlist.avgVolOf c3series = 0 := by
  unfold Watchlist.avgVolOf
  rw [c3series_take49, List.map_replicate]
  unfold meanQ
  rw [List.sum_replicate]
  simp [c3zero, nsmul_eq_mul]

/-- C3 counterexample: with an all-zero volume baseline and positive
today's volume, the source's `vol_ratio` (line 141) is the IEEE
infinity produced by numpy's division — not any screen-failure
sentinel — so the claim's "fails the screen via a sentinel" is false as
stated. -/
theorem c3_counterexample :
    Watchlist.avgVolOf c3series = 0 ∧ Watchlist.volRatioOf c3series = PFloat.inf := by
  refine ⟨c3_avgvol_zero, ?_⟩
  unfold Watchlist.volRatioOf
  rw [c3series_getD49, c3_avgvol_zero]
  simp only [PFloat.pdiv, if_true]
  rw [if_neg (by norm_num [c3bar]), if_pos (by norm_num [c3bar])]

/-- With at least 50 bars, nonnegative volumes and a zero 49-bar average
volume, every baseline volume is zero, hence so are the median and the
equity-volume estimate (line 140). -/
theorem equity_zero_of_avg_zero (s : List Bar) (hlen : ¬ s.length < 50)
    (hvol : ∀ b ∈ s, 0 ≤ b.Volume) (havg : Watchlist.avgVolOf s = 0) :
    Watchlist.equityVolOf s = 0 := by
  have hlen49 : ((s.take 49).map Bar.Volume).length = 49 := by
    simp [List.length_take]
    omega
  have hnn : ∀ x ∈ (s.take 49).map Bar.Volume, 0 ≤ x := by
    intro x hx
    rw [List.mem_map] at hx
    obtain ⟨b, hb, hbx⟩ := hx
    rw [← hbx]
    exact hvol b (List.take_subset 49 s hb)
  have hsum : ((s.take 49).map Bar.Volume).sum = 0 := by
    unfold Watchlist.avgVolOf meanQ at havg
    rw [hlen49] at havg
    rcases div_eq_zero_iff.mp havg with h | h
    · exact h
    · norm_num at h
  have hall : ∀ x ∈ (s.take 49).map Bar.Volume, x = 0 :=
    sum_zero_of_nonneg _ hnn hsum
  unfold Watchlist.equityVolOf
  rw [medianQ_zero hall, mul_zero]

/-- C3 amended: with a zero 49-bar average volume (all baseline volumes
zero, volumes nonnegative) and a nonzero previous-day high, the
evaluation never raises and fails the screen with no fetch and no row —
but through the zero equity-volume estimate short-circuiting line 143
before `round(vol_ratio)` is ever evaluated, not through any sentinel;
the infinite ratio itself is computed and simply never consumed. -/
theorem c3_zero_avg_skips (F : NpFuns) (env : Watchlist.Env) (stock : String) (s : List Bar)
    (hlen : ¬ s.length < 50) (hvol : ∀ b ∈ s, 0 ≤ b.Volume)
    (hh : (s.getD 48 defaultBar).High ≠ 0) (havg : Watchlist.avgVolOf s = 0) :
    Watchlist.get_stock_data F env stock s = Except.ok ⟨none, 0⟩ := by
  unfold Watchlist.get_stock_data
  rw [if_neg hlen]
  simp only
  by_cases hgreen : Watchlist.greenOf s = true
  · rw [if_pos hgreen]
    have hrg : roundP (Watchlist.gapOf s) =
        Except.ok (roundHalfEven (((s.getD 49 defaultBar).Open - (s.getD 48 defaultBar).High) /
          (s.getD 48 defaultBar).High * 100)) := by
      unfold Watchlist.gapOf
      simp only [PFloat.pdiv]
      rw [if_neg hh]
      simp only [PFloat.pmul]
      rfl
    rw [hrg]
    simp only
    split
    · rw [if_neg (by rw [equity_zero_of_avg_zero s hlen hvol havg]; norm_num)]
    · rfl
  · rw [if_neg hgreen]

/-- C3 witness: the amended theorem applied to the concrete all-zero
baseline series (which also exhibits the infinite ratio). -/
theorem c3_zero_avg_skips_witness :
    (¬ c3series.length < 50) ∧ (∀ b ∈ c3series, 0 ≤ b.Volume) ∧
      ((c3series.getD 48 defaultBar).High ≠ 0) ∧ Watchlist.avgVolOf c3series = 0 ∧
      Watchlist.get_stock_data F0 env0 "ZVOL" c3series = Except.ok ⟨none, 0⟩ := by
  have h1 : ¬ c3series.length < 50 := by simp [c3series]
  have h2 : ∀ b ∈ c3series, 0 ≤ b.Volume := by
    intro b hb
    rw [c3series, List.mem_append] at hb
    rcases hb with hb | hb
    · rw [List.eq_of_mem_replicate hb]
      norm_num [c3zero]
    · rw [List.mem_singleton] at hb
      rw [hb]
      norm_num [c3bar]
  have h3 : (c3series.getD 48 defaultBar).High ≠ 0 := by
    rw [c3series, List.getD_append _ _ defaultBar 48 (by simp)]
    simp [List.getD, c3zero]
  exact ⟨h1, h2, h3, c3_avgvol_zero,
    c3_zero_avg_skips F0 env0 "ZVOL" c3series h1 h2 h3 c3_avgvol_zero⟩

/-! Claim C1: fault isolation across the run. -/

/-- Bar data on which the evaluation's arithmetic stays finite at every
`round` call: either too short to pass the KeyError gate, or with a
nonzero previous-day high (finite gap) and nonnegative volumes (a zero
average volume then short-circuits before `round(vol_ratio)`). -/
def SafeSeries (s : List Bar) : Prop :=
  s.length < 50 ∨ ((s.getD 48 defaultBar).High ≠ 0 ∧ ∀ b ∈ s, 0 ≤ b.Volume)

theorem calculate_volatility_isNum (F : NpFuns) (prices : List ℚ) :
    ∃ x, DataCollector.calculate_volatility F prices = PyVal.num x :=
  ⟨_, rfl⟩

theorem get_stock_data_total (F : NpFuns) (env : Watchlist.Env) (stock : String)
    (s : List Bar) (h : SafeSeries s) :
    ∃ o, Watchlist.get_stock_data F env stock s = Except.ok o ∧
      ∀ r, o.row = some r → ∃ x, r.vol = PyVal.num x := by
  unfold Watchlist.get_stock_data
  by_cases hlen : s.length < 50
  · rw [if_pos hlen]
    exact ⟨⟨none, 0⟩, rfl, by intro r hr; cases hr⟩
  · rcases h with h | ⟨hh, hvol⟩
    · exact absurd h hlen
    rw [if_neg hlen]
    simp only
    by_cases hgreen : Watchlist.greenOf s = true
    · rw [if_pos hgreen]
      have hrg : roundP (Watchlist.gapOf s) =
          Except.ok (roundHalfEven (((s.getD 49 defaultBar).Open - (s.getD 48 defaultBar).High) /
            (s.getD 48 defaultBar).High * 100)) := by
        unfold Watchlist.gapOf
        simp only [PFloat.pdiv]
        rw [if_neg hh]
        simp only [PFloat.pmul]
        rfl
      rw [hrg]
      simp only
      split
      · by_cases heq : 250000 ≤ Watchlist.equityVolOf s
        · rw [if_pos heq]
          have havg : Watchlist.avgVolOf s ≠ 0 := by
            intro havg0
            rw [equity_zero_of_avg_zero s hlen hvol havg0] at heq
            norm_num at heq
          have hrv : roundP (Watchlist.volRatioOf s) =
              Except.ok (roundHalfEven ((s.getD 49 defaultBar).Volume / Watchlist.avgVolOf s)) := by
            unfold Watchlist.volRatioOf
            simp only [PFloat.pdiv]
            rw [if_neg havg]
            rfl
          rw [hrv]
          simp only
          split
          · split
            · refine ⟨_, rfl, ?_⟩
              intro r hr
              rw [Option.some.injEq] at hr
              obtain ⟨x, hx⟩ := calculate_volatility_isNum F ((s.take 49).map Bar.Close)
              refine ⟨x, ?_⟩
              rw [← hr]
              exact hx
            · exact ⟨⟨none, 5⟩, rfl, by intro r hr; cases hr⟩
          · exact ⟨⟨none, 0⟩, rfl, by intro r hr; cases hr⟩
        · rw [if_neg heq]
          exact ⟨⟨none, 0⟩, rfl, by intro r hr; cases hr⟩
      · exact ⟨⟨none, 0⟩, rfl, by intro r hr; cases hr⟩
    · rw [if_neg hgreen]
      exact ⟨⟨none, 0⟩, rfl, by intro r hr; cases hr⟩

theorem run_batch_total (F : NpFuns) (data : ℕ → String → Watchlist.Env × List Bar) (i : ℕ)
    (stocks : List String) (h : ∀ stock, SafeSeries (data i stock).2) :
    ∀ st : Watchlist.WState, ∃ st', Watchlist.run_batch F data i stocks st = Except.ok st' := by
  induction stocks with
  | nil => intro st; exact ⟨st, rfl⟩
  | cons stock rest ih =>
      intro st
      obtain ⟨o, ho, hrow⟩ := get_stock_data_total F (data i stock).1 stock (data i stock).2
        (h stock)
      simp only [Watchlist.run_batch, ho]
      cases hr : o.row with
      | none => exact ih st
      | some r =>
          obtain ⟨x, hx⟩ := hrow r hr
          simp only [Watchlist.record_pass, hx]
          split
          · rename_i e heq
            split at heq
            · exact Except.noConfusion heq
            · exact Except.noConfusion heq
          · rename_i st' heq
            exact ih st'

theorem run_windows_total (F : NpFuns) (data : ℕ → String → Watchlist.Env × List Bar)
    (stocks : List String) (h : ∀ i stock, SafeSeries (data i stock).2) :
    ∀ (ws : List ℕ) (st : Watchlist.WState),
      ∃ st', Watchlist.run_windows F data stocks ws st = Except.ok st' := by
  intro ws
  induction ws with
  | nil => intro st; exact ⟨st, rfl⟩
  | cons i rest ih =>
      intro st
      obtain ⟨st1, hst1⟩ := run_batch_total F data i stocks (fun stock => h i stock) st
      simp only [Watchlist.run_windows, hst1]
      exact ih st1

/-- C1 amended: KeyError/IndexError faults (short series) and collaborator
fetch failures are indeed absorbed inside each evaluation, and whenever
every requested bar series is `SafeSeries` (finite gap, nonnegative
volumes) the whole run terminates normally and prints the summary.  The
counterexample shows the rest of the original claim is false: a
non-finite value reaching a `round` call raises an uncaught exception
that escapes the task and aborts the run with no summary. -/
theorem c1_run_completes (F : NpFuns) (data : ℕ → String → Watchlist.Env × List Bar)
    (stocks : List String) (h : ∀ i stock, SafeSeries (data i stock).2) :
    ∃ cnt, Watchlist.run_main F data stocks = Except.ok cnt := by
  obtain ⟨st, hst⟩ := run_windows_total F data stocks h (List.range' 50 10) ⟨0, []⟩
  unfold Watchlist.run_main
  rw [hst]
  exact ⟨(st.stocks_in_play, st.sizzlers.length), rfl⟩

/-- C1 witness: a run over one symbol whose provider returns an empty
series (KeyError path, caught) completes with a summary. -/
theorem c1_run_completes_witness :
    (∀ (i : ℕ) (stock : String),
      SafeSeries ((fun (_ : ℕ) (_ : String) => (env0, ([] : List Bar))) i stock).2) ∧
    ∃ cnt, Watchlist.run_main F0 (fun _ _ => (env0, ([] : List Bar))) ["A"] = Except.ok cnt :=
  ⟨fun _ _ => Or.inl (by simp), c1_run_completes F0 _ ["A"] (fun _ _ => Or.inl (by simp))⟩

/-- Ordinary baseline bar of the C1 counterexample series. -/
def c1base : Bar := ⟨1, 1, 1, 1, 1⟩

/-- Degenerate second-to-last bar whose session high is 0. -/
def c1badHigh : Bar := ⟨1, 0, 0, 1, 1⟩

/-- Green final bar: its open gaps over a zero previous high, so the
computed gap is the IEEE infinity. -/
def c1green : Bar := ⟨1, 1, 0, 2, 1⟩

/-- The 50-bar series on which `round(gap)` raises OverflowError. -/
def c1series : List Bar := List.replicate 48 c1base ++ [c1badHigh, c1green]

theorem c1series_getD48 : c1series.getD 48 defaultBar = c1badHigh := by
  rw [c1series, List.getD_append_right _ _ defaultBar 48 (by simp)]
  simp [List.getD]

theorem c1series_getD49 : c1series.getD 49 defaultBar = c1green := by
  rw [c1series, List.getD_append_right _ _ defaultBar 49 (by simp)]
  simp [List.getD]

theorem c1_get_stock_data_raises :
    Watchlist.get_stock_data F0 env0 "BAD" c1series = Except.error PyErr.overflowError := by
  unfold Watchlist.get_stock_data
  rw [if_neg (by simp [c1series])]
  simp only
  rw [if_pos (by
    unfold Watchlist.greenOf
    rw [c1series_getD49]
    norm_num [c1green])]
  have hgap : Watchlist.gapOf c1series = PFloat.inf := by
    unfold Watchlist.gapOf
    rw [c1series_getD49, c1series_getD48]
    rw [show c1green.Open - c1badHigh.High = 1 by norm_num [c1green, c1badHigh]]
    rw [show c1badHigh.High = (0:ℚ) by norm_num [c1badHigh]]
    simp only [PFloat.pdiv, if_true]
    rw [if_neg (by norm_num), if_pos (by norm_num)]
    simp only [PFloat.pmul]
    rw [if_neg (by norm_num), if_pos (by norm_num)]
  rw [hgap]
  rfl

/-- C1 counterexample: with one symbol whose bar series has a zero
previous-day high under a green final day, the gap is infinite,
`round(gap)` at line 143 raises OverflowError, neither except-clause
(KeyError/IndexError, lines 159-162) catches it, the exception escapes
the task into `asyncio.gather`, and the run aborts with an error instead
of ever printing the summary — refuting "a compute fault ... never
propagates out of the per-symbol task". -/
theorem c1_counterexample :
    Watchlist.run_main F0 (fun _ _ => (env0, c1series)) ["BAD"] =
      Except.error PyErr.overflowError := by
  unfold Watchlist.run_main
  rw [show List.range' 50 10 = [50, 51, 52, 53, 54, 55, 56, 57, 58, 59] from by decide]
  simp only [Watchlist.run_windows, Watchlist.run_batch, c1_get_stock_data_raises]

/-! Claim C9: batches are separated by window size. -/

theorem sched_mem {ls : List (List Ev)} {out : List Ev} (hs : Sched ls out) :
    ∀ e ∈ out, ∃ l, l ∈ ls ∧ e ∈ l := by
  induction hs with
  | nil ls h =>
      intro e he
      exact absurd he (List.not_mem_nil e)
  | step ls1 x xs ls2 out hs ih =>
      intro e he
      rcases List.mem_cons.mp he with he | he
      · subst he
        exact ⟨e :: xs, by simp, List.mem_cons_self _ _⟩
      · obtain ⟨l, hl, hel⟩ := ih e he
        rw [List.mem_append] at hl
        rcases hl with hl | hl
        · exact ⟨l, by rw [List.mem_append]; exact Or.inl hl, hel⟩
        · rcases List.mem_cons.mp hl with hl | hl
          · subst hl
            exact ⟨x :: l, by simp, List.mem_cons_of_mem _ hel⟩
          · exact ⟨l, by
              rw [List.mem_append]
              exact Or.inr (List.mem_cons_of_mem _ hl), hel⟩

theorem taskEvents_window (i : ℕ) (stock : String) (r : Except PyErr Watchlist.Outcome) :
    ∀ e ∈ taskEvents i stock r, e.window = i := by
  intro e he
  cases r with
  | error err =>
      simp only [taskEvents, List.mem_singleton] at he
      rw [he]
      rfl
  | ok o =>
      simp only [taskEvents, List.mem_cons, List.mem_append] at he
      rcases he with he | he | he
      · rw [he]
        rfl
      · rw [List.eq_of_mem_replicate he]
        rfl
      · cases ho : o.row with
        | some r' =>
            rw [ho] at he
            simp only [List.mem_singleton] at he
            rw [he]
            rfl
        | none =>
            rw [ho] at he
            simp at he

theorem batch_events_window (F : NpFuns) (data : ℕ → String → Watchlist.Env × List Bar)
    (stocks : List String) (i : ℕ) (out : List Ev)
    (hs : Sched (windowTaskLists F data stocks i) out) :
    ∀ e ∈ out, e.window = i := by
  intro e he
  obtain ⟨l, hl, hel⟩ := sched_mem hs e he
  rw [windowTaskLists, List.mem_map] at hl
  obtain ⟨stock, _, hml⟩ := hl
  rw [← hml] at hel
  exact taskEvents_window i stock _ e hel

theorem mem_foldr_blocks {bt : ℕ → List Ev} :
    ∀ (ws : List ℕ) (e : Ev), e ∈ ws.foldr (fun i acc => bt i ++ acc) [] →
      ∃ i ∈ ws, e ∈ bt i := by
  intro ws
  induction ws with
  | nil =>
      intro e he
      exact absurd he (List.not_mem_nil e)
  | cons i rest ih =>
      intro e he
      rw [List.foldr_cons, List.mem_append] at he
      rcases he with he | he
      · exact ⟨i, List.mem_cons_self _ _, he⟩
      · obtain ⟨j, hj, hej⟩ := ih e he
        exact ⟨j, List.mem_cons_of_mem _ hj, hej⟩

theorem blocks_pairwise {bt : ℕ → List Ev} :
    ∀ ws : List ℕ, List.Pairwise (· < ·) ws →
      (∀ i ∈ ws, ∀ e ∈ bt i, e.window = i) →
      List.Pairwise (fun a b => Ev.window a ≤ Ev.window b)
        (ws.foldr (fun i acc => bt i ++ acc) []) := by
  intro ws
  induction ws with
  | nil =>
      intro _ _
      exact List.Pairwise.nil
  | cons i rest ih =>
      intro hpw htag
      rw [List.foldr_cons, List.pairwise_append]
      refine ⟨?_, ?_, ?_⟩
      · refine List.pairwise_of_forall_mem_list ?_
        intro a ha b hb
        rw [htag i (List.mem_cons_self _ _) a ha, htag i (List.mem_cons_self _ _) b hb]
      · exact ih hpw.of_cons (fun j hj => htag j (List.mem_cons_of_mem _ hj))
      · intro a ha b hb
        obtain ⟨j, hj, hbj⟩ := mem_foldr_blocks rest b hb
        rw [htag i (List.mem_cons_self _ _) a ha,
          htag j (List.mem_cons_of_mem _ hj) b hbj]
        exact le_of_lt (List.rel_of_pairwise_cons hpw hj)

/-- C9: in every trace the cooperative scheduler can produce for
`main` — any interleaving within each window's gathered batch, batches
concatenated in window order because line 175 awaits the whole batch —
an event of a smaller window size occurs strictly before every event of
a larger window size: no evaluation (or row print) of window N+1 starts
before window N's batch is fully resolved. -/
theorem c9_batches_ordered (F : NpFuns) (data : ℕ → String → Watchlist.Env × List Bar)
    (stocks : List String) (t : List Ev) (ht : MainTraceRel F data stocks t)
    (p q : Fin t.length) (hw : (t.get p).window < (t.get q).window) : p < q := by
  obtain ⟨bt, hsched, htr⟩ := ht
  have htag : ∀ i ∈ List.range' 50 10, ∀ e ∈ bt i, e.window = i := by
    intro i _ e he
    exact batch_events_window F data stocks i (bt i) (hsched i) e he
  have hpw := blocks_pairwise (List.range' 50 10) (by decide) htag
  rw [← htr] at hpw
  rw [List.pairwise_iff_get] at hpw
  by_contra hpq
  push_neg at hpq
  rcases lt_or_eq_of_le hpq with hlt | heq
  · have hle := hpw q p hlt
    exact absurd hw (not_lt_of_le hle)
  · rw [heq] at hw
    exact lt_irrefl _ hw

/-- The trace of a one-symbol run whose provider returns empty series:
one start event per window, in window order. -/
def c9trace : List Ev :=
  [Ev.start 50 "A", Ev.start 51 "A", Ev.start 52 "A", Ev.start 53 "A", Ev.start 54 "A",
    Ev.start 55 "A", Ev.start 56 "A", Ev.start 57 "A", Ev.start 58 "A", Ev.start 59 "A"]

theorem c9trace_is_main_trace :
    MainTraceRel F0 (fun _ _ => (env0, ([] : List Bar))) ["A"] c9trace := by
  refine ⟨fun i => [Ev.start i "A"], ?_, ?_⟩
  · intro i
    have hw : windowTaskLists F0 (fun _ _ => (env0, ([] : List Bar))) ["A"] i =
        [[Ev.start i "A"]] := rfl
    rw [hw]
    have base : Sched [([] : List Ev)] [] := Sched.nil _ (by
      intro l hl
      simpa using hl)
    exact Sched.step [] (Ev.start i "A") [] [] [] base
  · rfl

/-- C9 witness: the ordering theorem applied to the concrete trace — the
window-50 event at position 0 precedes the window-51 event at
position 1. -/
theorem c9_batches_ordered_witness :
    MainTraceRel F0 (fun _ _ => (env0, ([] : List Bar))) ["A"] c9trace ∧
      (c9trace.get ⟨0, by decide⟩).window < (c9trace.get ⟨1, by decide⟩).window ∧
      (⟨0, by decide⟩ : Fin c9trace.length) < ⟨1, by decide⟩ :=
  ⟨c9trace_is_main_trace, by decide,
    c9_batches_ordered F0 (fun _ _ => (env0, ([] : List Bar))) ["A"] c9trace
      c9trace_is_main_trace ⟨0, by decide⟩ ⟨1, by decide⟩ (by decide)⟩
